import Mathlib

/-!
Verification of the IENA multicast sender/receiver pair
(`iena_multicast_sender.py`, `iena_multicast_receiver.py`).

Modelling conventions:
* Byte buffers are `List Nat` (each entry one byte, `< 256`).
* IEEE-754 32-bit float values travel on the wire as 4-byte big-endian
  bit patterns; we model a value by its 32-bit bit pattern (`Nat < 2^32`),
  so `struct.pack`/`struct.unpack` of a float is exactly `be32`/`rd32`.
  Equality of bit patterns is 32-bit float equality.
* Wall-clock / monotonic clock readings and the display window are
  modelled as rationals (`ℚ`): the code only stores, subtracts and
  compares them.
* Python dicts are association lists (`List (key × value)`); dict lookup
  is `alookup` (with `none` standing for a raised `KeyError`), in-place
  assignment to an existing key is `aset`.
* Fallible code returns `Option`/`Except` instead of raising.
-/

/-- Sentinel 0xDEAD closing every IENA packet (`IENA_TRAILER`). -/
def IENA_TRAILER : Nat := 0xDEAD

/-- Fixed IENA header size in bytes (`HEADER_SIZE`). -/
def HEADER_SIZE : Nat := 16

/-- IENA trailer size in bytes (`TRAILER_SIZE`). -/
def TRAILER_SIZE : Nat := 2

/-- Big-endian 2-byte serialization of a 16-bit value (`struct.pack '>H'`). -/
def be16 (x : Nat) : List Nat :=
  [x / 256 % 256, x % 256]

/-- Big-endian 4-byte serialization of a 32-bit value (`struct.pack '>I'`,
and the bit pattern of `struct.pack '>f'`). -/
def be32 (x : Nat) : List Nat :=
  [x / 2 ^ 24 % 256, x / 2 ^ 16 % 256, x / 2 ^ 8 % 256, x % 256]

/-- Big-endian 16-bit read at a byte offset (`struct.unpack_from '>H'`). -/
def rd16 (data : List Nat) (off : Nat) : Nat :=
  data.getD off 0 * 256 + data.getD (off + 1) 0

/-- Big-endian 32-bit read at a byte offset (`struct.unpack_from '>I'` /
the bit pattern read by `'>f'`). -/
def rd32 (data : List Nat) (off : Nat) : Nat :=
  data.getD off 0 * 2 ^ 24 + data.getD (off + 1) 0 * 2 ^ 16 +
    data.getD (off + 2) 0 * 2 ^ 8 + data.getD (off + 3) 0

/-- Read `n` consecutive big-endian 32-bit values starting at `off`
(`struct.unpack_from '>Nf'`, values kept as bit patterns). -/
def readValues (data : List Nat) (off : Nat) : Nat → List Nat
  | 0 => []
  | n + 1 => rd32 data off :: readValues data (off + 4) n

/-- Decoded IENA packet: the dict returned by `parse_iena_packet`
(the unpacked `time_low` is dropped by the source, so it has no field). -/
structure IenaPacket where
  key : Nat
  size : Nat
  time_us : Nat
  status : Nat
  sequence : Nat
  n_params : Nat
  values : List Nat
deriving DecidableEq, Repr

/-- Translation of `parse_iena_packet` (receiver, lines 76-101): length
check against `HEADER_SIZE + 4*num_params + TRAILER_SIZE`, header unpack,
trailer check against `IENA_TRAILER`, payload unpack; `none` is the
Python `None` (malformed). -/
def parse_iena_packet (data : List Nat) (num_params : Nat) : Option IenaPacket :=
  let payload_size := num_params * 4
  let expected_size := HEADER_SIZE + payload_size + TRAILER_SIZE
  if data.length < expected_size then none
  else if rd16 data (HEADER_SIZE + payload_size) ≠ IENA_TRAILER then none
  else some
    { key := rd16 data 0
      size := rd16 data 2
      time_us := rd32 data 4
      status := rd16 data 10
      sequence := rd16 data 12
      n_params := rd16 data 14
      values := readValues data HEADER_SIZE num_params }

/-- Translation of `build_iena_packet` (sender, lines 105-132).  The
microseconds-since-midnight clock reading the Python function takes from
`datetime.now()` is passed in as `us_since_midnight`; the function then
truncates it to 32 bits.  `time_low` and `status` are the constant 0,
`sequence` is masked to 16 bits, and the packet is
header ++ payload ++ trailer. -/
def build_iena_packet (key : Nat) (sequence : Nat) (values : List Nat)
    (num_params : Nat) (us_since_midnight : Nat) : List Nat :=
  let time_high := us_since_midnight % 2 ^ 32
  let payload := (values.map be32).flatten
  let total_bytes := 16 + payload.length + 2
  let size_words := total_bytes / 2
  be16 key ++ be16 size_words ++ be32 time_high ++ be16 0 ++ be16 0 ++
    be16 (sequence % 65536) ++ be16 num_params ++ payload ++ be16 IENA_TRAILER

/-- Association-list lookup, modelling Python dict subscript; `none`
models a raised `KeyError`. -/
def alookup [DecidableEq κ] : List (κ × α) → κ → Option α
  | [], _ => none
  | p :: rest, k => if p.1 = k then some p.2 else alookup rest k

/-- Association-list in-place update of an existing key, modelling
assignment/mutation through a Python dict entry (a missing key is left
unchanged; all call sites update keys that are present). -/
def aset [DecidableEq κ] : List (κ × α) → κ → α → List (κ × α)
  | [], _, _ => []
  | p :: rest, k, v => if p.1 = k then (k, v) :: rest else p :: aset rest k v

/-- Bounded append of `collections.deque(maxlen=maxlen)`: append on the
right, evicting from the left whenever the capacity would be exceeded. -/
def dappend (maxlen : Nat) (xs : List α) (x : α) : List α :=
  (xs ++ [x]).drop (xs.length + 1 - maxlen)

/-- State of `IenaMulticastReceiver` (the socket/thread machinery is
external; this captures the fields the buffering logic reads and
writes).  `maxlen` is the shared deque capacity, fixed to 10000 by
`Receiver.init`. -/
structure Receiver where
  key_filter : Nat
  window : ℚ
  param_names : List String
  maxlen : Nat
  timestamps : List ℚ
  series : List (String × List Nat)
  packet_count : Nat
deriving DecidableEq, Repr

/-- Configured parameter count: `self.num_params = len(self.param_names)`. -/
def Receiver.num_params (r : Receiver) : Nat := r.param_names.length

/-- Translation of `IenaMulticastReceiver.__init__` (lines 209-225):
empty timestamp deque, one empty deque per parameter name (dict
comprehension in declaration order), capacity 10000, zero packets. -/
def Receiver.init (key_filter : Nat) (window : ℚ) (param_names : List String) :
    Receiver :=
  { key_filter := key_filter
    window := window
    param_names := param_names
    maxlen := 10000
    timestamps := []
    series := param_names.map (fun n => (n, []))
    packet_count := 0 }

/-- Loop `for i, name in enumerate(self.param_names): self.series[name].append(pkt['values'][i])`
of `_listen`: for each (name, value) pair in order, append the value to
that name's deque in the series dict. -/
def seriesAppend (maxlen : Nat) (d : List (String × List Nat))
    (pairs : List (String × Nat)) : List (String × List Nat) :=
  pairs.foldl (fun d p => aset d p.1 (dappend maxlen ((alookup d p.1).getD []) p.2)) d

/-- One iteration of the `_listen` loop body (lines 243-252) for a
datagram `data` received at wall-clock time `now`: parse with the
configured count; drop on parse failure or key mismatch; otherwise
append the timestamp, append `values[i]` to the deque of the i-th
parameter name, and increment `packet_count`. -/
def listen_step (r : Receiver) (now : ℚ) (data : List Nat) : Receiver :=
  match parse_iena_packet data r.num_params with
  | none => r
  | some pkt =>
    if pkt.key ≠ r.key_filter then r
    else
      { r with
        timestamps := dappend r.maxlen r.timestamps now
        series := seriesAppend r.maxlen r.series (r.param_names.zip pkt.values)
        packet_count := r.packet_count + 1 }

/-- Repeated `_listen` iterations over a finite sequence of received
datagrams, each paired with its arrival time. -/
def listen_run (r : Receiver) (msgs : List (ℚ × List Nat)) : Receiver :=
  msgs.foldl (fun r m => listen_step r m.1 m.2) r

/-- Short-circuiting map: apply `f` to each element in order, stopping
with `none` at the first failure (a loop whose body may raise). -/
def omapList (f : α → Option β) : List α → Option (List β)
  | [] => some []
  | a :: as =>
    match f a with
    | none => none
    | some b =>
      match omapList f as with
      | none => none
      | some bs => some (b :: bs)

/-- Translation of `IenaMulticastReceiver.get_data` (lines 256-274).
Empty buffer: empty arrays for every requested name.  Otherwise
`now = ts[-1]`, `cutoff = now - window`, the boolean mask `ts >= cutoff`
selects positions out of both the timestamp array and each requested
parameter's array (`np.array(...)[mask]` is position-wise selection,
modelled by filtering the zip on the timestamp component).  A requested
name missing from the series dict raises `KeyError`, modelled by `none`. -/
def get_data (r : Receiver) (var_names : List String) :
    Option (List ℚ × List (String × List Nat)) :=
  if r.timestamps = [] then
    some ([], var_names.map (fun n => (n, [])))
  else
    let now := r.timestamps.getLastD 0
    let cutoff := now - r.window
    let rel := (r.timestamps.filter (fun t => decide (cutoff ≤ t))).map (fun t => t - now)
    (omapList (fun n =>
        (alookup r.series n).map (fun arr =>
          (n, ((r.timestamps.zip arr).filter (fun p => decide (cutoff ≤ p.1))).map
            (fun p => p.2)))) var_names).map
      (fun res => (rel, res))

/-- Well-formedness of the receiver's shared buffers: the series dict has
exactly the configured (pairwise distinct) parameter names as keys, in
order, and every per-parameter deque has the same length as the shared
timestamp deque. -/
def SeriesWF (r : Receiver) : Prop :=
  r.param_names.Nodup ∧
  ∃ bufs : List (List Nat),
    r.series = r.param_names.zip bufs ∧
    bufs.length = r.param_names.length ∧
    ∀ b ∈ bufs, b.length = r.timestamps.length

/-- Per-stream record kept by `discover_streams`:
`{'count': ..., 'first': ..., 'last': ...}`. -/
structure DiscoveryRecord where
  count : Nat
  first : ℚ
  last : ℚ
deriving DecidableEq, Repr

/-- One iteration of the `discover_streams` loop body (lines 151-162) for
a datagram `data` from source `src_ip`, with `now` the monotonic clock
reading taken after the parse: skip on parse failure; otherwise insert a
zero record for the identity `(key, src_ip)` if absent, then increment
its count and set its `last` to `now`. -/
def discover_step (num_params : Nat)
    (streams : List ((Nat × String) × DiscoveryRecord))
    (now : ℚ) (data : List Nat) (src_ip : String) :
    List ((Nat × String) × DiscoveryRecord) :=
  match parse_iena_packet data num_params with
  | none => streams
  | some pkt =>
    let ident := (pkt.key, src_ip)
    let streams1 :=
      if (alookup streams ident).isSome then streams
      else streams ++ [(ident, ⟨0, now, now⟩)]
    let rec0 := (alookup streams1 ident).getD ⟨0, now, now⟩
    aset streams1 ident ⟨rec0.count + 1, rec0.first, now⟩

/-- Aggregation performed by `discover_streams` over the finite sequence
of datagrams decoded during the scan window, each as
(monotonic arrival time, bytes, source ip), starting from the empty
dict. -/
def discover_run (num_params : Nat) (evs : List (ℚ × List Nat × String)) :
    List ((Nat × String) × DiscoveryRecord) :=
  evs.foldl (fun s e => discover_step num_params s e.1 e.2.1 e.2.2) []

/-- Arrival times of the successfully decoded datagrams carrying a given
stream identity, in arrival order (the reference the discovery claims
are checked against). -/
def occTimes (num_params : Nat) (ident : Nat × String)
    (evs : List (ℚ × List Nat × String)) : List ℚ :=
  evs.filterMap (fun e =>
    match parse_iena_packet e.2.1 num_params with
    | none => none
    | some pkt => if (pkt.key, e.2.2) = ident then some e.1 else none)

/-- One observable iteration of the `discover_streams` while loop: the
monotonic clock value read by the loop condition, and what the
0.5s-timeout `recvfrom` then yields — `none` for `socket.timeout`,
otherwise the datagram with the clock value read after the parse and the
source address. -/
structure LoopEvent where
  checkTime : ℚ
  packet : Option (ℚ × List Nat × String)
deriving Repr

/-- Fuel-indexed unfolding of the `discover_streams` while loop (lines
145-162): at iteration `n`, if the monotonic clock has reached the
deadline the accumulated dict is returned; otherwise the iteration's
receive outcome is processed (timeouts are skipped via `continue`) and
the loop continues.  `none` means the fuel ran out before the deadline
was reached. -/
def discover_loopAux (num_params : Nat) (evs : ℕ → LoopEvent) (deadline : ℚ)
    (streams : List ((Nat × String) × DiscoveryRecord)) :
    ℕ → ℕ → Option (List ((Nat × String) × DiscoveryRecord))
  | _, 0 => none
  | n, fuel + 1 =>
    if (evs n).checkTime < deadline then
      let s1 :=
        match (evs n).packet with
        | none => streams
        | some (t, data, src) => discover_step num_params streams t data src
      discover_loopAux num_params evs deadline s1 (n + 1) fuel
    else some streams

/-- Translation of the sender `main`'s eager configuration check (sender
lines 163-167): zero parsed variable names is rejected with
`parser.error` before the UDP socket is created. -/
def sender_validate (param_names : List String) : Except String Unit :=
  if param_names.length = 0 then
    Except.error "At least one variable name is required"
  else Except.ok ()

/-- Translation of the receiver `main`'s pre-socket configuration phase
(receiver lines 376-385): the selected variables are the (already
comma-split) `--vars` list when given, else the first three configured
parameter names; the first selected name missing from the configured
list is rejected with `parser.error`.  On success the program proceeds
to open sockets (`discover_streams` / `IenaMulticastReceiver`). -/
def receiver_validate (param_names : List String)
    (vars_arg : Option (List String)) : Except String (List String) :=
  let selected :=
    match vars_arg with
    | some vs => vs
    | none => param_names.take 3
  match selected.find? (fun v => ! param_names.contains v) with
  | some v => Except.error v
  | none => Except.ok selected

/-- One sample emitted by the sender: wall-clock arrival time at the
receiver, sequence number, microseconds-since-midnight at encode time,
and the float values (as 32-bit bit patterns). -/
structure SenderMsg where
  t : ℚ
  seq : Nat
  us : Nat
  vals : List Nat
deriving DecidableEq, Repr

/-- Bytes of the datagram `build_iena_packet` produces for one sample. -/
def msgBytes (key : Nat) (num_params : Nat) (m : SenderMsg) : List Nat :=
  build_iena_packet key m.seq m.vals num_params m.us

/-! ### Codec lemmas -/

/-- Unfolded form of `parse_iena_packet`. -/
theorem parse_eq (data : List Nat) (np : Nat) :
    parse_iena_packet data np =
      if data.length < 16 + np * 4 + 2 then none
      else if rd16 data (16 + np * 4) ≠ 0xDEAD then none
      else some
        { key := rd16 data 0, size := rd16 data 2, time_us := rd32 data 4,
          status := rd16 data 10, sequence := rd16 data 12, n_params := rd16 data 14,
          values := readValues data 16 np } := rfl

theorem getD_shift (l r : List Nat) (i : Nat) :
    (l ++ r).getD (l.length + i) 0 = r.getD i 0 := by
  simp [List.getD_eq_getElem?_getD, List.getElem?_append_right]

theorem rd16_shift (l r : List Nat) (off : Nat) :
    rd16 (l ++ r) (l.length + off) = rd16 r off := by
  unfold rd16
  rw [getD_shift, show l.length + off + 1 = l.length + (off + 1) by omega, getD_shift]

theorem rd32_shift (l r : List Nat) (off : Nat) :
    rd32 (l ++ r) (l.length + off) = rd32 r off := by
  unfold rd32
  rw [getD_shift,
    show l.length + off + 1 = l.length + (off + 1) by omega, getD_shift,
    show l.length + off + 2 = l.length + (off + 2) by omega, getD_shift,
    show l.length + off + 3 = l.length + (off + 3) by omega, getD_shift]

theorem rd16_skip (l r : List Nat) (k off : Nat) (h : l.length = k) :
    rd16 (l ++ r) (k + off) = rd16 r off := by
  subst h; exact rd16_shift l r off

theorem readValues_shift (l r : List Nat) :
    ∀ (n off : Nat), readValues (l ++ r) (l.length + off) n = readValues r off n
  | 0, _ => rfl
  | n + 1, off => by
    unfold readValues
    rw [rd32_shift, show l.length + off + 4 = l.length + (off + 4) by omega,
      readValues_shift l r n (off + 4)]

theorem readValues_skip (l r : List Nat) (k off n : Nat) (h : l.length = k) :
    readValues (l ++ r) (k + off) n = readValues r off n := by
  subst h; exact readValues_shift l r n off

theorem readValues_length (data : List Nat) :
    ∀ (n off : Nat), (readValues data off n).length = n
  | 0, _ => rfl
  | n + 1, off => by
    unfold readValues
    rw [List.length_cons, readValues_length data n (off + 4)]

theorem rd16_be16 (x : Nat) (r : List Nat) : rd16 (be16 x ++ r) 0 = x % 65536 := by
  show x / 256 % 256 * 256 + x % 256 = x % 65536
  omega

theorem rd32_be32 (v : Nat) (r : List Nat) : rd32 (be32 v ++ r) 0 = v % 2 ^ 32 := by
  show v / 2 ^ 24 % 256 * 2 ^ 24 + v / 2 ^ 16 % 256 * 2 ^ 16 +
      v / 2 ^ 8 % 256 * 2 ^ 8 + v % 256 = v % 2 ^ 32
  omega

theorem payload_length (vals : List Nat) :
    ((vals.map be32).flatten).length = 4 * vals.length := by
  induction vals with
  | nil => rfl
  | cons v vs ih => simp [be32, ih]; omega

theorem readValues_payload :
    ∀ (vals r : List Nat), (∀ v ∈ vals, v < 2 ^ 32) →
      readValues ((vals.map be32).flatten ++ r) 0 vals.length = vals
  | [], _, _ => rfl
  | v :: vs, r, hv => by
    have hx : ((v :: vs).map be32).flatten ++ r = be32 v ++ ((vs.map be32).flatten ++ r) := by
      simp
    rw [hx]
    show rd32 (be32 v ++ ((vs.map be32).flatten ++ r)) 0 ::
        readValues (be32 v ++ ((vs.map be32).flatten ++ r)) 4 vs.length = v :: vs
    rw [rd32_be32, Nat.mod_eq_of_lt (hv v (by simp)),
      show (4 : Nat) = (be32 v).length + 0 from rfl, readValues_shift,
      readValues_payload vs r (fun x hx => hv x (by simp [hx]))]

/-- Parsing an explicit header ++ payload ++ trailer frame recovers every
header field modulo its width, provided the payload length matches the
configured count. -/
theorem parse_build_core (k s t a b c n : Nat) (P : List Nat) (np : Nat)
    (hP : P.length = np * 4) :
    parse_iena_packet
      ((be16 k ++ be16 s ++ be32 t ++ be16 a ++ be16 b ++ be16 c ++ be16 n) ++
        (P ++ be16 IENA_TRAILER)) np =
      some { key := k % 65536, size := s % 65536, time_us := t % 2 ^ 32,
             status := b % 65536, sequence := c % 65536, n_params := n % 65536,
             values := readValues (P ++ be16 IENA_TRAILER) 0 np } := by
  set H := be16 k ++ be16 s ++ be32 t ++ be16 a ++ be16 b ++ be16 c ++ be16 n with hH
  have hHlen : H.length = 16 := by simp [hH, be16, be32]
  have hlen_all : (H ++ (P ++ be16 IENA_TRAILER)).length = 16 + (np * 4 + 2) := by
    simp [hHlen, hP, be16]
  have hform : H ++ (P ++ be16 IENA_TRAILER) =
      k / 256 % 256 :: k % 256 :: s / 256 % 256 :: s % 256 ::
      t / 2 ^ 24 % 256 :: t / 2 ^ 16 % 256 :: t / 2 ^ 8 % 256 :: t % 256 ::
      a / 256 % 256 :: a % 256 :: b / 256 % 256 :: b % 256 ::
      c / 256 % 256 :: c % 256 :: n / 256 % 256 :: n % 256 ::
      (P ++ be16 IENA_TRAILER) := by
    simp [hH, be16, be32]
  have htr : rd16 (H ++ (P ++ be16 IENA_TRAILER)) (16 + np * 4) = 0xDEAD := by
    have e1 : rd16 (H ++ (P ++ be16 IENA_TRAILER)) (16 + np * 4) =
        rd16 (P ++ be16 IENA_TRAILER) (np * 4) := rd16_skip H _ 16 (np * 4) hHlen
    have e2 : rd16 (P ++ be16 IENA_TRAILER) (np * 4) = rd16 (be16 IENA_TRAILER) 0 := by
      have := rd16_skip P (be16 IENA_TRAILER) (np * 4) 0 hP
      simpa using this
    have e3 : rd16 (be16 IENA_TRAILER) 0 = IENA_TRAILER % 65536 := by
      have := rd16_be16 IENA_TRAILER []
      simpa using this
    rw [e1, e2, e3]; decide
  have f0 : rd16 (H ++ (P ++ be16 IENA_TRAILER)) 0 = k % 65536 := by
    rw [hform]; show k / 256 % 256 * 256 + k % 256 = k % 65536; omega
  have f2 : rd16 (H ++ (P ++ be16 IENA_TRAILER)) 2 = s % 65536 := by
    rw [hform]; show s / 256 % 256 * 256 + s % 256 = s % 65536; omega
  have f4 : rd32 (H ++ (P ++ be16 IENA_TRAILER)) 4 = t % 2 ^ 32 := by
    rw [hform]
    show t / 2 ^ 24 % 256 * 2 ^ 24 + t / 2 ^ 16 % 256 * 2 ^ 16 +
        t / 2 ^ 8 % 256 * 2 ^ 8 + t % 256 = t % 2 ^ 32
    omega
  have f10 : rd16 (H ++ (P ++ be16 IENA_TRAILER)) 10 = b % 65536 := by
    rw [hform]; show b / 256 % 256 * 256 + b % 256 = b % 65536; omega
  have f12 : rd16 (H ++ (P ++ be16 IENA_TRAILER)) 12 = c % 65536 := by
    rw [hform]; show c / 256 % 256 * 256 + c % 256 = c % 65536; omega
  have f14 : rd16 (H ++ (P ++ be16 IENA_TRAILER)) 14 = n % 65536 := by
    rw [hform]; show n / 256 % 256 * 256 + n % 256 = n % 65536; omega
  have fvals : readValues (H ++ (P ++ be16 IENA_TRAILER)) 16 np =
      readValues (P ++ be16 IENA_TRAILER) 0 np := by
    have := readValues_skip H (P ++ be16 IENA_TRAILER) 16 0 np hHlen
    simpa using this
  rw [parse_eq]
  rw [if_neg (by omega), if_neg (by rw [htr]; simp [IENA_TRAILER])]
  rw [f0, f2, f4, f10, f12, f14, fvals]

/-- Decoding the bytes of `build_iena_packet` with the same configured
count recovers every field. -/
theorem parse_build (key seq us np : Nat) (vals : List Nat)
    (hk : key < 65536) (hs : seq < 65536) (hlen : vals.length = np)
    (hv : ∀ v ∈ vals, v < 2 ^ 32) :
    parse_iena_packet (build_iena_packet key seq vals np us) np =
      some { key := key, size := (16 + 4 * np + 2) / 2 % 65536,
             time_us := us % 2 ^ 32, status := 0, sequence := seq,
             n_params := np % 65536, values := vals } := by
  subst hlen
  have hb : build_iena_packet key seq vals vals.length us =
      (be16 key ++ be16 ((16 + ((vals.map be32).flatten).length + 2) / 2) ++
        be32 (us % 2 ^ 32) ++ be16 0 ++ be16 0 ++ be16 (seq % 65536) ++
        be16 vals.length) ++ ((vals.map be32).flatten ++ be16 IENA_TRAILER) := by
    simp [build_iena_packet, List.append_assoc]
  rw [hb, parse_build_core _ _ _ _ _ _ _ _ _ (by rw [payload_length]; omega)]
  rw [readValues_payload vals (be16 IENA_TRAILER) hv, payload_length]
  have h1 : key % 65536 = key := Nat.mod_eq_of_lt hk
  have h2 : seq % 65536 % 65536 = seq := by omega
  have h3 : us % 2 ^ 32 % 2 ^ 32 = us % 2 ^ 32 := by omega
  simp [h1, h2, h3]

/-- C1: for every parameter count N in [1, 64], every key and sequence in
[0, 65536), and every sequence of N 32-bit float values (as bit
patterns), decoding the bytes produced by `build_iena_packet` with the
same configured parameter count succeeds (so the trailer validates) and
yields the same key, the same sequence, and the same N values under
32-bit float (bit-pattern) equality. -/
theorem C1_encode_decode_round_trip (N key seq us : Nat) (values : List Nat)
    (hN1 : 1 ≤ N) (hN2 : N ≤ 64) (hkey : key < 65536) (hseq : seq < 65536)
    (hlen : values.length = N) (hvals : ∀ v ∈ values, v < 2 ^ 32) :
    ∃ pkt : IenaPacket,
      parse_iena_packet (build_iena_packet key seq values N us) N = some pkt ∧
      pkt.key = key ∧ pkt.sequence = seq ∧ pkt.values = values :=
  ⟨_, parse_build key seq us N values hkey hseq hlen hvals, rfl, rfl, rfl⟩

/-- Witness for C1 at N = 2, key = 0x0A01, seq = 7, values [5, 6]. -/
theorem C1_encode_decode_round_trip_witness :
    (1 ≤ 2 ∧ 2 ≤ 64 ∧ 0x0A01 < 65536 ∧ 7 < 65536 ∧
      ([5, 6] : List Nat).length = 2 ∧ ∀ v ∈ ([5, 6] : List Nat), v < 2 ^ 32) ∧
    ∃ pkt : IenaPacket,
      parse_iena_packet (build_iena_packet 0x0A01 7 [5, 6] 2 123) 2 = some pkt ∧
      pkt.key = 0x0A01 ∧ pkt.sequence = 7 ∧ pkt.values = [5, 6] :=
  ⟨⟨by decide, by decide, by decide, by decide, by decide, by decide⟩,
    C1_encode_decode_round_trip 2 0x0A01 7 123 [5, 6]
      (by decide) (by decide) (by decide) (by decide) (by decide) (by decide)⟩

/-- C2: `parse_iena_packet buffer N` returns `none` (Malformed) exactly
when the buffer is shorter than `16 + 4*N + 2` bytes or the 16-bit
big-endian value at offset `16 + 4*N` differs from 0xDEAD; in all other
cases it returns a decoded packet.  The model function is total, which
reflects that the Python never raises: `struct.unpack_from` runs only
after the length guard has passed. -/
theorem C2_decode_malformed_iff (data : List Nat) (N : Nat) :
    parse_iena_packet data N = none ↔
      data.length < 16 + 4 * N + 2 ∨ rd16 data (16 + 4 * N) ≠ 0xDEAD := by
  have hc : 16 + N * 4 = 16 + 4 * N := by ring
  rw [parse_eq, hc]
  by_cases h1 : data.length < 16 + 4 * N + 2
  · simp [h1]
  · by_cases h2 : rd16 data (16 + 4 * N) ≠ 0xDEAD <;> simp [h1, h2]

/-! ### Association-list and deque lemmas -/

theorem dappend_length (maxlen : Nat) (xs : List α) (x : α) :
    (dappend maxlen xs x).length = min (xs.length + 1) maxlen := by
  simp [dappend]; omega

theorem alookup_map_self (f : String → List Nat) :
    ∀ (names : List String) (n : String), n ∈ names →
      alookup (names.map (fun m => (m, f m))) n = some (f n)
  | m :: ms, n, h => by
    by_cases hm : m = n
    · subst hm; simp [alookup]
    · have : n ∈ ms := by
        cases h with
        | head => exact absurd rfl hm
        | tail _ h => exact h
      simp [alookup, hm, alookup_map_self f ms n this]

theorem alookup_map_self_none (f : String → List Nat) :
    ∀ (names : List String) (n : String), n ∉ names →
      alookup (names.map (fun m => (m, f m))) n = none
  | [], _, _ => rfl
  | m :: ms, n, h => by
    have hm : m ≠ n := fun e => h (e ▸ List.mem_cons_self m ms)
    have : n ∉ ms := fun e => h (List.mem_cons_of_mem m e)
    simp [alookup, hm, alookup_map_self_none f ms n this]

theorem alookup_aset_ne [DecidableEq κ] (k k' : κ) (v : α) (hne : k' ≠ k) :
    ∀ d : List (κ × α), alookup (aset d k v) k' = alookup d k'
  | [] => rfl
  | p :: rest => by
    have hkk' : ¬ (k = k') := fun e => hne e.symm
    by_cases hp : p.1 = k
    · have hp' : ¬ (p.1 = k') := by rw [hp]; exact hkk'
      simp [aset, hp, alookup, hkk', hp']
    · simp only [aset, hp, if_false, alookup]
      by_cases hp' : p.1 = k'
      · simp [hp']
      · simp [hp', alookup_aset_ne k k' v hne rest]

theorem alookup_aset_self [DecidableEq κ] (k : κ) (v : α) :
    ∀ d : List (κ × α), (alookup d k).isSome →
      alookup (aset d k v) k = some v
  | p :: rest, h => by
    by_cases hp : p.1 = k
    · simp [aset, hp, alookup]
    · simp only [alookup, hp, if_false] at h
      simp [aset, hp, alookup, alookup_aset_self k v rest h]

theorem alookup_append [DecidableEq κ] (k : κ) :
    ∀ (d₁ d₂ : List (κ × α)),
      alookup (d₁ ++ d₂) k = ((alookup d₁ k).orElse (fun _ => alookup d₂ k))
  | [], _ => rfl
  | p :: rest, d₂ => by
    by_cases hp : p.1 = k
    · simp [alookup, hp]
    · simp [alookup, hp, alookup_append k rest d₂]

theorem seriesAppend_skip (maxlen : Nat) (n : String) (b : List Nat) :
    ∀ (pairs : List (String × Nat)) (d : List (String × List Nat)),
      n ∉ pairs.map Prod.fst →
      seriesAppend maxlen ((n, b) :: d) pairs = (n, b) :: seriesAppend maxlen d pairs
  | [], _, _ => rfl
  | p :: ps, d, h => by
    simp only [List.map_cons, List.mem_cons, not_or] at h
    obtain ⟨hne, hps⟩ := h
    have hp : p.1 ≠ n := fun e => hne e.symm
    have hnp : ¬ (n = p.1) := hne
    show seriesAppend maxlen
        (aset ((n, b) :: d) p.1 (dappend maxlen ((alookup ((n, b) :: d) p.1).getD []) p.2)) ps =
      (n, b) :: seriesAppend maxlen
        (aset d p.1 (dappend maxlen ((alookup d p.1).getD []) p.2)) ps
    have h1 : alookup ((n, b) :: d) p.1 = alookup d p.1 := by
      simp [alookup, hnp]
    have h2 : aset ((n, b) :: d) p.1 (dappend maxlen ((alookup d p.1).getD []) p.2) =
        (n, b) :: aset d p.1 (dappend maxlen ((alookup d p.1).getD []) p.2) := by
      simp [aset, hnp]
    rw [h1, h2, seriesAppend_skip maxlen n b ps _ hps]

theorem seriesAppend_zip (maxlen : Nat) :
    ∀ (names : List String) (bufs : List (List Nat)) (vals : List Nat),
      names.Nodup → bufs.length = names.length → vals.length = names.length →
      seriesAppend maxlen (names.zip bufs) (names.zip vals) =
        names.zip (List.zipWith (fun b v => dappend maxlen b v) bufs vals)
  | [], bufs, vals, _, hb, hv => by
    simp at hb hv
    simp [hb, hv, seriesAppend]
  | n :: ns, bufs, vals, hnd, hb, hv => by
    match bufs, vals with
    | b :: bs, v :: vs =>
      simp only [List.length_cons] at hb hv
      have hnmem : n ∉ ns := (List.nodup_cons.mp hnd).1
      have hnd' : ns.Nodup := (List.nodup_cons.mp hnd).2
      show seriesAppend maxlen
          (aset ((n, b) :: ns.zip bs) n
            (dappend maxlen ((alookup ((n, b) :: ns.zip bs) n).getD []) v)) (ns.zip vs) = _
      have h1 : alookup ((n, b) :: ns.zip bs) n = some b := by simp [alookup]
      have h2 : aset ((n, b) :: ns.zip bs) n (dappend maxlen b v) =
          (n, dappend maxlen b v) :: ns.zip bs := by simp [aset]
      rw [h1]
      show seriesAppend maxlen
          (aset ((n, b) :: ns.zip bs) n (dappend maxlen b v)) (ns.zip vs) = _
      rw [h2]
      have hkeys : n ∉ (ns.zip vs).map Prod.fst := by
        rw [List.map_fst_zip ns vs (by omega)]
        exact hnmem
      rw [seriesAppend_skip maxlen n (dappend maxlen b v) (ns.zip vs) _ hkeys,
        seriesAppend_zip maxlen ns bs vs hnd' (by omega) (by omega)]
      rfl

/-! ### Receiver-step lemmas -/

theorem parse_some_values_length (data : List Nat) (np : Nat) (pkt : IenaPacket)
    (h : parse_iena_packet data np = some pkt) : pkt.values.length = np := by
  rw [parse_eq] at h
  by_cases h1 : data.length < 16 + np * 4 + 2
  · rw [if_pos h1] at h; cases h
  · rw [if_neg h1] at h
    by_cases h2 : rd16 data (16 + np * 4) ≠ 0xDEAD
    · rw [if_pos h2] at h; cases h
    · rw [if_neg h2] at h
      simp only [Option.some.injEq] at h
      subst h
      exact readValues_length data np 16

theorem parse_some_key (data : List Nat) (np : Nat) (pkt : IenaPacket)
    (h : parse_iena_packet data np = some pkt) : pkt.key = rd16 data 0 := by
  rw [parse_eq] at h
  by_cases h1 : data.length < 16 + np * 4 + 2
  · rw [if_pos h1] at h; cases h
  · rw [if_neg h1] at h
    by_cases h2 : rd16 data (16 + np * 4) ≠ 0xDEAD
    · rw [if_pos h2] at h; cases h
    · rw [if_neg h2] at h
      simp only [Option.some.injEq] at h
      subst h
      rfl

theorem listen_step_skip (r : Receiver) (now : ℚ) (data : List Nat)
    (h : parse_iena_packet data r.num_params = none) :
    listen_step r now data = r := by
  simp [listen_step, h]

theorem listen_step_mismatch (r : Receiver) (now : ℚ) (data : List Nat)
    (pkt : IenaPacket) (h : parse_iena_packet data r.num_params = some pkt)
    (hk : pkt.key ≠ r.key_filter) :
    listen_step r now data = r := by
  simp [listen_step, h, hk]

theorem listen_step_match (r : Receiver) (now : ℚ) (data : List Nat)
    (pkt : IenaPacket) (h : parse_iena_packet data r.num_params = some pkt)
    (hk : pkt.key = r.key_filter) :
    listen_step r now data =
      { r with
        timestamps := dappend r.maxlen r.timestamps now
        series := seriesAppend r.maxlen r.series (r.param_names.zip pkt.values)
        packet_count := r.packet_count + 1 } := by
  simp [listen_step, h, hk]

theorem mem_zipWith {f : α → β → γ} :
    ∀ {as : List α} {bs : List β} {c : γ}, c ∈ List.zipWith f as bs →
      ∃ a b, a ∈ as ∧ b ∈ bs ∧ c = f a b
  | a :: as, b :: bs, c, h => by
    rw [List.zipWith_cons_cons, List.mem_cons] at h
    cases h with
    | inl h => exact ⟨a, b, List.mem_cons_self a as, List.mem_cons_self b bs, h⟩
    | inr h =>
      obtain ⟨a', b', ha, hb, hc⟩ := mem_zipWith h
      exact ⟨a', b', List.mem_cons_of_mem a ha, List.mem_cons_of_mem b hb, hc⟩

theorem alookup_mem [DecidableEq κ] :
    ∀ (d : List (κ × α)) (k : κ) (v : α), alookup d k = some v → (k, v) ∈ d
  | p :: rest, k, v, h => by
    by_cases hp : p.1 = k
    · simp only [alookup, hp, if_true, Option.some.injEq] at h
      subst h; subst hp
      exact List.mem_cons_self _ _
    · simp only [alookup, hp, if_false] at h
      exact List.mem_cons_of_mem p (alookup_mem rest k v h)

theorem zip_map_nil :
    ∀ names : List String,
      names.zip (names.map (fun _ => ([] : List Nat))) =
        names.map (fun n => (n, ([] : List Nat)))
  | [] => rfl
  | n :: ns => by
    show (n, ([] : List Nat)) :: ns.zip (ns.map fun _ => []) =
      (n, ([] : List Nat)) :: ns.map (fun n => (n, []))
    rw [zip_map_nil ns]

theorem SeriesWF_init (key : Nat) (w : ℚ) (names : List String)
    (hnd : names.Nodup) : SeriesWF (Receiver.init key w names) := by
  refine ⟨hnd, names.map (fun _ => []), ?_, by simp [Receiver.init], ?_⟩
  · show names.map (fun n => (n, [])) = names.zip (names.map (fun _ => []))
    rw [zip_map_nil]
  · intro b hb
    simp at hb
    simp [hb, Receiver.init]

theorem SeriesWF_step (r : Receiver) (now : ℚ) (data : List Nat)
    (hw : SeriesWF r) : SeriesWF (listen_step r now data) := by
  obtain ⟨hnd, bufs, hser, hlb, hlen⟩ := hw
  cases hp : parse_iena_packet data r.num_params with
  | none => rw [listen_step_skip r now data hp]; exact ⟨hnd, bufs, hser, hlb, hlen⟩
  | some pkt =>
    by_cases hk : pkt.key = r.key_filter
    · rw [listen_step_match r now data pkt hp hk]
      have hvl : pkt.values.length = r.param_names.length :=
        parse_some_values_length data r.num_params pkt hp
      refine ⟨hnd, List.zipWith (fun b v => dappend r.maxlen b v) bufs pkt.values,
        ?_, ?_, ?_⟩
      · show seriesAppend r.maxlen r.series (r.param_names.zip pkt.values) = _
        rw [hser]
        exact seriesAppend_zip r.maxlen r.param_names bufs pkt.values hnd hlb hvl
      · simp; omega
      · intro b hb
        obtain ⟨b0, v, hb0, _, hc⟩ := mem_zipWith hb
        subst hc
        show (dappend r.maxlen b0 v).length = (dappend r.maxlen r.timestamps now).length
        rw [dappend_length, dappend_length, hlen b0 hb0]
    · rw [listen_step_mismatch r now data pkt hp hk]
      exact ⟨hnd, bufs, hser, hlb, hlen⟩

/-! ### Snapshot lemmas -/

theorem get_data_empty (r : Receiver) (vars : List String)
    (h : r.timestamps = []) :
    get_data r vars = some ([], vars.map (fun n => (n, []))) := by
  simp [get_data, h]

theorem get_data_nonempty (r : Receiver) (vars : List String)
    (h : r.timestamps ≠ []) :
    get_data r vars =
      (omapList (fun n =>
          (alookup r.series n).map (fun arr =>
            (n, ((r.timestamps.zip arr).filter
                (fun p => decide (r.timestamps.getLastD 0 - r.window ≤ p.1))).map
              (fun p => p.2)))) vars).map
        (fun res =>
          ((r.timestamps.filter
              (fun t => decide (r.timestamps.getLastD 0 - r.window ≤ t))).map
            (fun t => t - r.timestamps.getLastD 0), res)) := by
  simp [get_data, h]

theorem omapList_some (f : α → Option β) (g : α → β) :
    ∀ l : List α, (∀ a ∈ l, f a = some (g a)) → omapList f l = some (l.map g)
  | [], _ => rfl
  | a :: as, h => by
    have ha : f a = some (g a) := h a (List.mem_cons_self a as)
    have hrest := omapList_some f g as (fun x hx => h x (List.mem_cons_of_mem a hx))
    simp [omapList, ha, hrest]

theorem omapList_mem (f : α → Option β) :
    ∀ (l : List α) (res : List β), omapList f l = some res →
      ∀ b ∈ res, ∃ a ∈ l, f a = some b
  | [], res, h => by
    simp only [omapList, Option.some.injEq] at h
    subst h
    intro b hb
    cases hb
  | a :: as, res, h => by
    cases hf : f a with
    | none => simp [omapList, hf] at h
    | some b0 =>
      cases hrest : omapList f as with
      | none => simp [omapList, hf, hrest] at h
      | some bs =>
        simp only [omapList, hf, hrest, Option.some.injEq] at h
        subst h
        intro b hb
        cases List.mem_cons.mp hb with
        | inl hb0 => exact ⟨a, List.mem_cons_self a as, hb0 ▸ hf⟩
        | inr hbs =>
          obtain ⟨x, hx, hfx⟩ := omapList_mem f as bs hrest b hbs
          exact ⟨x, List.mem_cons_of_mem a hx, hfx⟩

theorem omapList_none (f : α → Option β) :
    ∀ (l : List α) (a : α), a ∈ l → f a = none → omapList f l = none
  | x :: xs, a, ha, hfa => by
    cases List.mem_cons.mp ha with
    | inl hax =>
      have : f x = none := by rw [← hax]; exact hfa
      simp [omapList, this]
    | inr haxs =>
      have hrest : omapList f xs = none := omapList_none f xs a haxs hfa
      cases hfx : f x with
      | none => simp [omapList, hfx]
      | some b => simp [omapList, hfx, hrest]

theorem filter_zip_length (P : ℚ → Bool) :
    ∀ (ts : List ℚ) (arr : List Nat), arr.length = ts.length →
      (((ts.zip arr).filter (fun p => P p.1)).map (fun p => p.2)).length =
        (ts.filter P).length := by
  intro ts
  induction ts with
  | nil => intro arr h; rfl
  | cons t ts ih =>
    intro arr h
    match arr with
    | [] => simp at h
    | a :: ar =>
      simp only [List.length_cons] at h
      have h' : ar.length = ts.length := by omega
      rw [List.zip_cons_cons]
      cases hP : P t with
      | false => simp [List.filter_cons, hP, ih ar h']
      | true => simp [List.filter_cons, hP, ih ar h']

theorem SeriesWF_snapshot (r : Receiver) (vars : List String) (rel : List ℚ)
    (res : List (String × List Nat)) (hw : SeriesWF r)
    (h : get_data r vars = some (rel, res)) :
    ∀ p ∈ res, p.2.length = rel.length := by
  by_cases hts : r.timestamps = []
  · rw [get_data_empty r vars hts] at h
    simp only [Option.some.injEq, Prod.mk.injEq] at h
    obtain ⟨h1, h2⟩ := h
    subst h1; subst h2
    intro p hp
    obtain ⟨n, _, hn⟩ := List.mem_map.mp hp
    simp [← hn]
  · rw [get_data_nonempty r vars hts] at h
    cases hom : omapList (fun n =>
        (alookup r.series n).map (fun arr =>
          (n, ((r.timestamps.zip arr).filter
              (fun p => decide (r.timestamps.getLastD 0 - r.window ≤ p.1))).map
            (fun p => p.2)))) vars with
    | none => rw [hom] at h; cases h
    | some res0 =>
      rw [hom] at h
      simp only [Option.map_some', Option.some.injEq, Prod.mk.injEq] at h
      obtain ⟨h1, h2⟩ := h
      subst h1; subst h2
      intro p hp
      obtain ⟨n, _, hfn⟩ := omapList_mem _ vars res0 hom p hp
      cases hal : alookup r.series n with
      | none => rw [hal] at hfn; cases hfn
      | some arr =>
        rw [hal] at hfn
        simp only [Option.map_some', Option.some.injEq] at hfn
        obtain ⟨hnd, bufs, hser, hlb, hlen⟩ := hw
        have harr : arr ∈ bufs := by
          have hmem := alookup_mem r.series n arr hal
          rw [hser] at hmem
          exact (List.of_mem_zip hmem).2
        rw [← hfn]
        have hfl := filter_zip_length
          (fun t => decide (r.timestamps.getLastD 0 - r.window ≤ t))
          r.timestamps arr (hlen arr harr)
        simp only [List.length_map] at hfl ⊢
        exact hfl

/-- C5: the parallel-buffer length invariant `SeriesWF` (every configured
parameter's deque as long as the shared timestamp deque) holds of a
freshly constructed receiver, is preserved by every ingestion step
(matched append, eviction at capacity, drop), and under it a snapshot
always returns, for every parameter, a values sequence of the same
length as the relative-timestamps sequence. -/
theorem C5_parallel_buffer_invariant :
    (∀ (key : Nat) (w : ℚ) (names : List String), names.Nodup →
        SeriesWF (Receiver.init key w names)) ∧
    (∀ (r : Receiver) (now : ℚ) (data : List Nat),
        SeriesWF r → SeriesWF (listen_step r now data)) ∧
    (∀ (r : Receiver) (vars : List String) (rel : List ℚ)
        (res : List (String × List Nat)),
        SeriesWF r → get_data r vars = some (rel, res) →
        ∀ p ∈ res, p.2.length = rel.length) :=
  ⟨SeriesWF_init, SeriesWF_step, SeriesWF_snapshot⟩

/-- Witness for C5 at a two-parameter receiver. -/
theorem C5_parallel_buffer_invariant_witness :
    (["a", "b"] : List String).Nodup ∧
    SeriesWF (Receiver.init 2561 30 ["a", "b"]) :=
  ⟨by decide, C5_parallel_buffer_invariant.1 2561 30 ["a", "b"] (by decide)⟩

/-! ### Key-filtering lemmas -/

theorem rd16_build_key (key seq : Nat) (vals : List Nat) (np us : Nat) :
    rd16 (build_iena_packet key seq vals np us) 0 = key % 65536 :=
  rd16_be16 key _

theorem listen_run_id (r : Receiver) :
    ∀ msgs : List (ℚ × List Nat),
      (∀ m ∈ msgs, listen_step r m.1 m.2 = r) → listen_run r msgs = r
  | [], _ => rfl
  | m :: ms, h => by
    show listen_run (listen_step r m.1 m.2) ms = r
    rw [h m (List.mem_cons_self m ms)]
    exact listen_run_id r ms (fun x hx => h x (List.mem_cons_of_mem m hx))

theorem alookup_zip_getD :
    ∀ (names : List String) (bufs : List (List Nat)) (i : Nat),
      names.Nodup → bufs.length = names.length → i < names.length →
      alookup (names.zip bufs) (names.getD i "") = some (bufs.getD i [])
  | [], _, i, _, _, hi => by simp at hi
  | n :: ns, [], i, _, hlb, _ => by simp at hlb
  | n :: ns, b :: bs, 0, _, _, _ => by simp [alookup]
  | n :: ns, b :: bs, i + 1, hnd, hlb, hi => by
    simp only [List.length_cons] at hlb hi
    have hlb' : bs.length = ns.length := by omega
    have hi' : i < ns.length := by omega
    have hmem : ns.getD i "" ∈ ns := by
      rw [List.getD_eq_getElem ns "" hi']
      exact List.getElem_mem hi'
    have hne : ¬ (n = ns.getD i "") := by
      intro e
      exact (List.nodup_cons.mp hnd).1 (e ▸ hmem)
    show alookup ((n, b) :: ns.zip bs) (ns.getD i "") = some (bs.getD i [])
    simp only [alookup, hne, if_false]
    exact alookup_zip_getD ns bs i (List.nodup_cons.mp hnd).2 hlb' hi'

theorem getD_zipWith {f : List Nat → Nat → List Nat} :
    ∀ (as : List (List Nat)) (bs : List Nat) (i : Nat),
      i < as.length → i < bs.length →
      (List.zipWith f as bs).getD i [] = f (as.getD i []) (bs.getD i 0)
  | a :: as, b :: bs, 0, _, _ => rfl
  | a :: as, b :: bs, i + 1, ha, hb => by
    simp only [List.length_cons] at ha hb
    show (List.zipWith f as bs).getD i [] = f (as.getD i []) (bs.getD i 0)
    exact getD_zipWith as bs i (by omega) (by omega)
  | [], _, i, ha, _ => by simp at ha
  | _ :: _, [], i, _, hb => by simp at hb

/-- C6: a malformed or key-mismatched datagram leaves the receiver state
unchanged (no sample appended, `packet_count` not incremented); a
matched datagram appends exactly one sample to the shared timestamp
deque and to every configured parameter's deque and increments
`packet_count` by exactly one; and a receiver with filter key 0x0A01 fed
only datagrams built with key 0x0B02 stays in its initial state
(`packet_count` 0, no samples). -/
theorem C6_key_filtering :
    (∀ (r : Receiver) (now : ℚ) (data : List Nat),
        parse_iena_packet data r.num_params = none →
        listen_step r now data = r) ∧
    (∀ (r : Receiver) (now : ℚ) (data : List Nat) (pkt : IenaPacket),
        parse_iena_packet data r.num_params = some pkt →
        pkt.key ≠ r.key_filter → listen_step r now data = r) ∧
    (∀ (r : Receiver) (now : ℚ) (data : List Nat) (pkt : IenaPacket)
        (bufs : List (List Nat)),
        parse_iena_packet data r.num_params = some pkt →
        pkt.key = r.key_filter → r.param_names.Nodup →
        r.series = r.param_names.zip bufs →
        bufs.length = r.param_names.length →
        (listen_step r now data).packet_count = r.packet_count + 1 ∧
        (listen_step r now data).timestamps = dappend r.maxlen r.timestamps now ∧
        ∀ i, i < r.param_names.length →
          alookup (listen_step r now data).series (r.param_names.getD i "") =
            some (dappend r.maxlen (bufs.getD i []) (pkt.values.getD i 0))) ∧
    (∀ (w : ℚ) (names : List String) (msgs : List SenderMsg),
        listen_run (Receiver.init 0x0A01 w names)
          (msgs.map (fun m => (m.t, msgBytes 0x0B02 names.length m))) =
          Receiver.init 0x0A01 w names) := by
  refine ⟨listen_step_skip, listen_step_mismatch, ?_, ?_⟩
  · intro r now data pkt bufs hp hk hnd hser hlb
    have hvl : pkt.values.length = r.param_names.length :=
      parse_some_values_length data r.num_params pkt hp
    rw [listen_step_match r now data pkt hp hk]
    refine ⟨rfl, rfl, ?_⟩
    intro i hi
    show alookup (seriesAppend r.maxlen r.series (r.param_names.zip pkt.values))
        (r.param_names.getD i "") = _
    rw [hser, seriesAppend_zip r.maxlen r.param_names bufs pkt.values hnd hlb hvl]
    rw [alookup_zip_getD r.param_names _ i hnd (by simp; omega) hi]
    rw [getD_zipWith bufs pkt.values i (by omega) (by omega)]
  · intro w names msgs
    apply listen_run_id
    intro x hx
    obtain ⟨m, _, hm⟩ := List.mem_map.mp hx
    subst hm
    cases hp : parse_iena_packet (msgBytes 0x0B02 names.length m)
        (Receiver.init 0x0A01 w names).num_params with
    | none => exact listen_step_skip _ _ _ hp
    | some pkt =>
      refine listen_step_mismatch _ _ _ pkt hp ?_
      have hkey : pkt.key = rd16 (msgBytes 0x0B02 names.length m) 0 :=
        parse_some_key _ _ pkt hp
      rw [hkey]
      show rd16 (build_iena_packet 0x0B02 m.seq m.vals names.length m.us) 0 ≠
        (Receiver.init 0x0A01 w names).key_filter
      rw [rd16_build_key]
      show (0x0B02 % 65536 : Nat) ≠ 0x0A01
      decide

/-- Witness for C6 on an unparseable (empty) datagram. -/
theorem C6_key_filtering_witness :
    parse_iena_packet [] (Receiver.init 1 1 ["a"]).num_params = none ∧
    listen_step (Receiver.init 1 1 ["a"]) 0 [] = Receiver.init 1 1 ["a"] :=
  ⟨by decide, C6_key_filtering.1 (Receiver.init 1 1 ["a"]) 0 [] (by decide)⟩

/-! ### Eviction lemmas -/

theorem foldl_dappend (cap : Nat) :
    ∀ (xs : List α) (T : List α), T.length ≤ cap →
      xs.foldl (fun t x => dappend cap t x) T =
        (T ++ xs).drop (T.length + xs.length - cap)
  | [], T, hT => by simp [Nat.sub_eq_zero_of_le hT]
  | x :: rest, T, hT => by
    show rest.foldl (fun t x => dappend cap t x) (dappend cap T x) = _
    have hT' : (dappend cap T x).length ≤ cap := by
      rw [dappend_length]; omega
    rw [foldl_dappend cap rest (dappend cap T x) hT']
    show (((T ++ [x]).drop (T.length + 1 - cap)) ++ rest).drop _ = _
    rw [← List.drop_append_of_le_length (by simp)]
    rw [List.drop_drop]
    have hlen : (dappend cap T x).length = min (T.length + 1) cap := dappend_length cap T x
    rw [hlen]
    have hassoc : (T ++ [x]) ++ rest = T ++ (x :: rest) := by simp
    rw [hassoc]
    congr 1
    simp only [List.length_cons]
    omega

theorem foldl_zipWith_getD (cap : Nat) :
    ∀ (msgs : List SenderMsg) (bufs : List (List Nat)) (L i : Nat),
      bufs.length = L → (∀ m ∈ msgs, m.vals.length = L) → i < L →
      (msgs.foldl
          (fun bs m => List.zipWith (fun b v => dappend cap b v) bs m.vals)
          bufs).getD i [] =
        msgs.foldl (fun b m => dappend cap b (m.vals.getD i 0)) (bufs.getD i [])
  | [], _, _, _, _, _, _ => rfl
  | m :: rest, bufs, L, i, hb, hm, hi => by
    have hmv : m.vals.length = L := hm m (List.mem_cons_self m rest)
    show (rest.foldl (fun bs m => List.zipWith (fun b v => dappend cap b v) bs m.vals)
        (List.zipWith (fun b v => dappend cap b v) bufs m.vals)).getD i [] = _
    rw [foldl_zipWith_getD cap rest _ L i
      (by rw [List.length_zipWith]; omega)
      (fun x hx => hm x (List.mem_cons_of_mem m hx)) hi]
    rw [getD_zipWith bufs m.vals i (by omega) (by omega)]
    rfl

theorem foldl_zipWith_length (cap : Nat) :
    ∀ (msgs : List SenderMsg) (bufs : List (List Nat)) (L : Nat),
      bufs.length = L → (∀ m ∈ msgs, m.vals.length = L) →
      (msgs.foldl
          (fun bs m => List.zipWith (fun b v => dappend cap b v) bs m.vals)
          bufs).length = L
  | [], _, _, hb, _ => hb
  | m :: rest, bufs, L, hb, hm => by
    show (rest.foldl (fun bs m => List.zipWith (fun b v => dappend cap b v) bs m.vals)
        (List.zipWith (fun b v => dappend cap b v) bufs m.vals)).length = L
    have hmv : m.vals.length = L := hm m (List.mem_cons_self m rest)
    exact foldl_zipWith_length cap rest _ L
      (by rw [List.length_zipWith]; omega)
      (fun x hx => hm x (List.mem_cons_of_mem m hx))

theorem listen_run_build (key : Nat) (hk : key < 65536) (names : List String)
    (hnd : names.Nodup) :
    ∀ (msgs : List SenderMsg) (r : Receiver) (bufs : List (List Nat)),
      r.key_filter = key → r.param_names = names → r.series = names.zip bufs →
      bufs.length = names.length →
      (∀ m ∈ msgs, m.seq < 65536 ∧ m.vals.length = names.length ∧
        ∀ v ∈ m.vals, v < 2 ^ 32) →
      listen_run r (msgs.map (fun m => (m.t, msgBytes key names.length m))) =
        { r with
          timestamps := msgs.foldl (fun t m => dappend r.maxlen t m.t) r.timestamps
          series := names.zip (msgs.foldl
            (fun bs m => List.zipWith (fun b v => dappend r.maxlen b v) bs m.vals) bufs)
          packet_count := r.packet_count + msgs.length }
  | [], r, bufs, _, _, hser, _, _ => by
    show r = _
    simp only [List.foldl_nil, List.length_nil, Nat.add_zero]
    rw [← hser]
  | m :: rest, r, bufs, hkf, hpn, hser, hlb, hm => by
    obtain ⟨hseq, hvl, hvb⟩ := hm m (List.mem_cons_self m rest)
    have hparse : parse_iena_packet (msgBytes key names.length m) r.num_params =
        some { key := key, size := (16 + 4 * names.length + 2) / 2 % 65536,
               time_us := m.us % 2 ^ 32, status := 0, sequence := m.seq,
               n_params := names.length % 65536, values := m.vals } := by
      show parse_iena_packet (build_iena_packet key m.seq m.vals names.length m.us)
        r.num_params = _
      have hnp : r.num_params = names.length := by
        show r.param_names.length = names.length
        rw [hpn]
      rw [hnp]
      exact parse_build key m.seq m.us names.length m.vals hk hseq hvl hvb
    have hstep := listen_step_match r m.t (msgBytes key names.length m) _ hparse
      (by show key = r.key_filter; rw [hkf])
    show listen_run (listen_step r m.t (msgBytes key names.length m))
      (rest.map (fun m => (m.t, msgBytes key names.length m))) = _
    rw [hstep]
    have hser2 : seriesAppend r.maxlen r.series
        (r.param_names.zip
          ({ key := key, size := (16 + 4 * names.length + 2) / 2 % 65536,
             time_us := m.us % 2 ^ 32, status := 0, sequence := m.seq,
             n_params := names.length % 65536, values := m.vals } : IenaPacket).values) =
        names.zip (List.zipWith (fun b v => dappend r.maxlen b v) bufs m.vals) := by
      rw [hser, hpn]
      exact seriesAppend_zip r.maxlen names bufs m.vals hnd hlb hvl
    rw [hser2]
    rw [listen_run_build key hk names hnd rest
      ({ r with
        timestamps := dappend r.maxlen r.timestamps m.t
        series := names.zip (List.zipWith (fun b v => dappend r.maxlen b v) bufs m.vals)
        packet_count := r.packet_count + 1 })
      (List.zipWith (fun b v => dappend r.maxlen b v) bufs m.vals)
      hkf hpn rfl (by rw [List.length_zipWith]; omega)
      (fun x hx => hm x (List.mem_cons_of_mem m hx))]
    show ({ r with
        timestamps := rest.foldl (fun t x => dappend r.maxlen t x.t)
          (dappend r.maxlen r.timestamps m.t)
        series := names.zip (rest.foldl
          (fun bs x => List.zipWith (fun b v => dappend r.maxlen b v) bs x.vals)
          (List.zipWith (fun b v => dappend r.maxlen b v) bufs m.vals))
        packet_count := r.packet_count + 1 + rest.length } : Receiver) = _
    have hpc : r.packet_count + 1 + rest.length = r.packet_count + (rest.length + 1) := by
      omega
    rw [hpc]
    rfl

/-- C4: for any capacity `cap` configured in the `maxlen` field (fixed to
10000 by the implementation's constructor, as the last conjunct
records), ingesting more matched samples than `cap` leaves the shared
timestamp deque and every configured parameter's deque holding exactly
the `cap` most recent entries in insertion order, the oldest discarded;
the display window plays no role (the statement holds for every window
value `w`). -/
theorem C4_capacity_eviction (cap : Nat) (hcap : 1 ≤ cap) (key : Nat)
    (hk : key < 65536) (w : ℚ) (names : List String) (hnd : names.Nodup)
    (msgs : List SenderMsg)
    (hm : ∀ m ∈ msgs, m.seq < 65536 ∧ m.vals.length = names.length ∧
      ∀ v ∈ m.vals, v < 2 ^ 32)
    (hlong : cap < msgs.length) :
    (listen_run { Receiver.init key w names with maxlen := cap }
        (msgs.map (fun m => (m.t, msgBytes key names.length m)))).timestamps =
      (msgs.map (fun m => m.t)).drop (msgs.length - cap) ∧
    (∀ i, i < names.length →
      alookup (listen_run { Receiver.init key w names with maxlen := cap }
          (msgs.map (fun m => (m.t, msgBytes key names.length m)))).series
        (names.getD i "") =
        some ((msgs.map (fun m => m.vals.getD i 0)).drop (msgs.length - cap))) ∧
    (Receiver.init key w names).maxlen = 10000 := by
  have hrun := listen_run_build key hk names hnd msgs
    { Receiver.init key w names with maxlen := cap }
    (names.map (fun _ => []))
    rfl rfl (zip_map_nil names).symm (by simp) hm
  rw [hrun]
  refine ⟨?_, ?_, rfl⟩
  · show msgs.foldl (fun t m => dappend cap t m.t) [] = _
    have h1 : msgs.foldl (fun t m => dappend cap t m.t) ([] : List ℚ) =
        (msgs.map (fun m => m.t)).foldl (fun t x => dappend cap t x) [] := by
      rw [List.foldl_map]
    rw [h1, foldl_dappend cap (msgs.map (fun m => m.t)) [] (by simp)]
    simp
  · intro i hi
    show alookup (names.zip
        (msgs.foldl (fun bs m => List.zipWith (fun b v => dappend cap b v) bs m.vals)
          (names.map (fun _ => [])))) (names.getD i "") = _
    rw [alookup_zip_getD names _ i hnd
      (foldl_zipWith_length cap msgs _ names.length (by simp)
        (fun m hm' => (hm m hm').2.1)) hi]
    rw [foldl_zipWith_getD cap msgs _ names.length i (by simp)
      (fun m hm' => (hm m hm').2.1) hi]
    have hgd : (names.map (fun _ => ([] : List Nat))).getD i [] = [] := by
      simp only [List.getD_eq_getElem?_getD, List.getElem?_map]
      cases names[i]? <;> rfl
    rw [hgd]
    have h2 : msgs.foldl (fun b m => dappend cap b (m.vals.getD i 0)) ([] : List Nat) =
        (msgs.map (fun m => m.vals.getD i 0)).foldl (fun b x => dappend cap b x) [] := by
      rw [List.foldl_map]
    rw [h2, foldl_dappend cap _ [] (by simp)]
    simp

/-- Witness for C4: capacity 2, three matched samples; the buffers keep
the last two. -/
theorem C4_capacity_eviction_witness :
    (1 ≤ 2 ∧ (1 : Nat) < 65536 ∧ (["a"] : List String).Nodup ∧
      (∀ m ∈ ([⟨0, 1, 5, [10]⟩, ⟨1, 2, 6, [11]⟩, ⟨2, 3, 7, [12]⟩] : List SenderMsg),
        m.seq < 65536 ∧ m.vals.length = (["a"] : List String).length ∧
        ∀ v ∈ m.vals, v < 2 ^ 32) ∧
      2 < ([⟨0, 1, 5, [10]⟩, ⟨1, 2, 6, [11]⟩, ⟨2, 3, 7, [12]⟩] : List SenderMsg).length) ∧
    ((listen_run { Receiver.init 1 30 ["a"] with maxlen := 2 }
        (([⟨0, 1, 5, [10]⟩, ⟨1, 2, 6, [11]⟩, ⟨2, 3, 7, [12]⟩] : List SenderMsg).map
          (fun m => (m.t, msgBytes 1 (["a"] : List String).length m)))).timestamps =
      (([⟨0, 1, 5, [10]⟩, ⟨1, 2, 6, [11]⟩, ⟨2, 3, 7, [12]⟩] : List SenderMsg).map
          (fun m => m.t)).drop
        (([⟨0, 1, 5, [10]⟩, ⟨1, 2, 6, [11]⟩, ⟨2, 3, 7, [12]⟩] : List SenderMsg).length - 2) ∧
    (∀ i, i < (["a"] : List String).length →
      alookup (listen_run { Receiver.init 1 30 ["a"] with maxlen := 2 }
          (([⟨0, 1, 5, [10]⟩, ⟨1, 2, 6, [11]⟩, ⟨2, 3, 7, [12]⟩] : List SenderMsg).map
            (fun m => (m.t, msgBytes 1 (["a"] : List String).length m)))).series
        ((["a"] : List String).getD i "") =
        some ((([⟨0, 1, 5, [10]⟩, ⟨1, 2, 6, [11]⟩, ⟨2, 3, 7, [12]⟩] : List SenderMsg).map
            (fun m => m.vals.getD i 0)).drop
          (([⟨0, 1, 5, [10]⟩, ⟨1, 2, 6, [11]⟩, ⟨2, 3, 7, [12]⟩] : List SenderMsg).length - 2))) ∧
    (Receiver.init 1 30 ["a"]).maxlen = 10000) :=
  ⟨⟨by decide, by decide, by decide, by decide, by decide⟩,
    C4_capacity_eviction 2 (by decide) 1 (by decide) 30 ["a"] (by decide)
      [⟨0, 1, 5, [10]⟩, ⟨1, 2, 6, [11]⟩, ⟨2, 3, 7, [12]⟩] (by decide) (by decide)⟩

/-! ### Windowed-snapshot index correspondence -/

theorem filter_map_range_rel (P : ℚ → Bool) (f : ℚ → ℚ) :
    ∀ ts : List ℚ,
      (ts.filter P).map f =
        ((List.range ts.length).filter (fun i => P (ts.getD i 0))).map
          (fun i => f (ts.getD i 0)) := by
  intro ts
  induction ts with
  | nil => rfl
  | cons t ts ih =>
    rw [List.length_cons, List.range_succ_eq_map]
    rw [List.filter_cons, List.filter_cons]
    simp only [List.getD_cons_zero, List.filter_map, List.map_map, Function.comp_def,
      List.getD_cons_succ]
    cases hP : P t with
    | false => simp [ih]
    | true => simp [ih]

theorem filter_map_range_vals (P : ℚ → Bool) :
    ∀ (ts : List ℚ) (arr : List Nat), arr.length = ts.length →
      ((ts.zip arr).filter (fun p => P p.1)).map (fun p => p.2) =
        ((List.range ts.length).filter (fun i => P (ts.getD i 0))).map
          (fun i => arr.getD i 0) := by
  intro ts
  induction ts with
  | nil => intro arr h; rfl
  | cons t ts ih =>
    intro arr h
    match arr with
    | [] => simp at h
    | a :: ar =>
      simp only [List.length_cons] at h
      rw [List.length_cons, List.range_succ_eq_map, List.zip_cons_cons]
      rw [List.filter_cons, List.filter_cons]
      simp only [List.getD_cons_zero, List.filter_map, List.map_map, Function.comp_def,
        List.getD_cons_succ]
      cases hP : P t with
      | false => simp [ih ar (by omega)]
      | true => simp [ih ar (by omega)]

/-- C3: on a non-empty buffer, a snapshot for requested configured names
returns exactly the index set `I = (i | ts(i) >= latest - window)`:
relative timestamps `ts(i) - latest` for `i ∈ I` and, per requested
name, the values of that name's deque at the positions `I`; on an empty
buffer it returns empty sequences for every requested name rather than
failing. -/
theorem C3_windowed_snapshot :
    (∀ (r : Receiver) (bufOf : String → List Nat) (vars : List String),
        r.timestamps ≠ [] →
        r.series = r.param_names.map (fun n => (n, bufOf n)) →
        (∀ n ∈ r.param_names, (bufOf n).length = r.timestamps.length) →
        (∀ n ∈ vars, n ∈ r.param_names) →
        get_data r vars = some
          (((List.range r.timestamps.length).filter
              (fun i => decide (r.timestamps.getLastD 0 - r.window ≤
                r.timestamps.getD i 0))).map
            (fun i => r.timestamps.getD i 0 - r.timestamps.getLastD 0),
           vars.map (fun n =>
            (n, ((List.range r.timestamps.length).filter
                (fun i => decide (r.timestamps.getLastD 0 - r.window ≤
                  r.timestamps.getD i 0))).map
              (fun i => (bufOf n).getD i 0))))) ∧
    (∀ (r : Receiver) (vars : List String), r.timestamps = [] →
        get_data r vars = some ([], vars.map (fun n => (n, [])))) := by
  refine ⟨?_, get_data_empty⟩
  intro r bufOf vars hne hser hlen hvars
  rw [get_data_nonempty r vars hne]
  have hom := omapList_some
    (fun n => (alookup r.series n).map (fun arr =>
      (n, ((r.timestamps.zip arr).filter
          (fun p => decide (r.timestamps.getLastD 0 - r.window ≤ p.1))).map
        (fun p => p.2))))
    (fun n =>
      (n, ((r.timestamps.zip (bufOf n)).filter
          (fun p => decide (r.timestamps.getLastD 0 - r.window ≤ p.1))).map
        (fun p => p.2)))
    vars
    (fun n hn => by
      simp only [hser, alookup_map_self bufOf r.param_names n (hvars n hn),
        Option.map_some'])
  rw [hom]
  simp only [Option.map_some', Option.some.injEq]
  refine Prod.ext ?_ ?_
  · exact filter_map_range_rel _ _ r.timestamps
  · refine List.map_congr_left ?_
    intro n hn
    exact congrArg (Prod.mk n)
      (filter_map_range_vals
        (fun t => decide (r.timestamps.getLastD 0 - r.window ≤ t))
        r.timestamps (bufOf n) (hlen n (hvars n hn)))

/-- Witness for C3 at a concrete two-sample, one-parameter state. -/
theorem C3_windowed_snapshot_witness :
    (({ key_filter := 1, window := 30, param_names := ["a"], maxlen := 10000, timestamps := [1, 2], series := [("a", [5, 6])], packet_count := 2 } : Receiver).timestamps ≠ [] ∧
      ({ key_filter := 1, window := 30, param_names := ["a"], maxlen := 10000, timestamps := [1, 2], series := [("a", [5, 6])], packet_count := 2 } : Receiver).series =
        ({ key_filter := 1, window := 30, param_names := ["a"], maxlen := 10000, timestamps := [1, 2], series := [("a", [5, 6])], packet_count := 2 } : Receiver).param_names.map
          (fun n => (n, (fun _ => [5, 6] : String → List Nat) n))) ∧
    get_data
      ({ key_filter := 1, window := 30, param_names := ["a"], maxlen := 10000, timestamps := [1, 2], series := [("a", [5, 6])], packet_count := 2 } : Receiver) ["a"] = some
      (((List.range ([1, 2] : List ℚ).length).filter
          (fun i => decide (([1, 2] : List ℚ).getLastD 0 - 30 ≤
            ([1, 2] : List ℚ).getD i 0))).map
        (fun i => ([1, 2] : List ℚ).getD i 0 - ([1, 2] : List ℚ).getLastD 0),
       (["a"] : List String).map (fun n =>
        (n, ((List.range ([1, 2] : List ℚ).length).filter
            (fun i => decide (([1, 2] : List ℚ).getLastD 0 - 30 ≤
              ([1, 2] : List ℚ).getD i 0))).map
          (fun i => ((fun _ => [5, 6] : String → List Nat) n).getD i 0)))) :=
  ⟨⟨by decide, by decide⟩,
    C3_windowed_snapshot.1
      { key_filter := 1, window := 30, param_names := ["a"], maxlen := 10000, timestamps := [1, 2], series := [("a", [5, 6])], packet_count := 2 }
      (fun _ => [5, 6]) ["a"] (by decide) (by decide) (by decide) (by decide)⟩

/-- C10: requesting an unconfigured parameter name from a snapshot
returns an empty sequence for it while the buffer is still empty, but
raises `KeyError` (modelled as `none`) once at least one sample has been
ingested. -/
theorem C10_snapshot_unconfigured_name :
    (∀ (r : Receiver) (vars : List String), r.timestamps = [] →
        get_data r vars = some ([], vars.map (fun n => (n, [])))) ∧
    (∀ (r : Receiver) (bufOf : String → List Nat) (vars : List String)
        (name : String),
        r.series = r.param_names.map (fun n => (n, bufOf n)) →
        r.timestamps ≠ [] → name ∈ vars → name ∉ r.param_names →
        get_data r vars = none) := by
  refine ⟨get_data_empty, ?_⟩
  intro r bufOf vars name hser hne hmem hnot
  rw [get_data_nonempty r vars hne]
  rw [omapList_none _ vars name hmem
    (by rw [hser, alookup_map_self_none bufOf r.param_names name hnot]; rfl)]
  rfl

/-- Witness for C10: name "b" requested from a receiver configured only
with "a", after one sample. -/
theorem C10_snapshot_unconfigured_name_witness :
    (({ key_filter := 1, window := 30, param_names := ["a"], maxlen := 10000, timestamps := [1], series := [("a", [5])], packet_count := 1 } : Receiver).series =
        ({ key_filter := 1, window := 30, param_names := ["a"], maxlen := 10000, timestamps := [1], series := [("a", [5])], packet_count := 1 } : Receiver).param_names.map
          (fun n => (n, (fun _ => [5] : String → List Nat) n)) ∧
      ({ key_filter := 1, window := 30, param_names := ["a"], maxlen := 10000, timestamps := [1], series := [("a", [5])], packet_count := 1 } : Receiver).timestamps ≠ [] ∧
      "b" ∈ (["b"] : List String) ∧
      "b" ∉ ({ key_filter := 1, window := 30, param_names := ["a"], maxlen := 10000, timestamps := [1], series := [("a", [5])], packet_count := 1 } : Receiver).param_names) ∧
    get_data
      ({ key_filter := 1, window := 30, param_names := ["a"], maxlen := 10000, timestamps := [1], series := [("a", [5])], packet_count := 1 } : Receiver) ["b"] = none :=
  ⟨⟨by decide, by decide, by decide, by decide⟩,
    C10_snapshot_unconfigured_name.2
      { key_filter := 1, window := 30, param_names := ["a"], maxlen := 10000, timestamps := [1], series := [("a", [5])], packet_count := 1 }
      (fun _ => [5]) ["b"] "b" (by decide) (by decide) (by decide) (by decide)⟩

/-! ### Discovery lemmas -/

theorem discover_step_none (np : Nat) (s : List ((Nat × String) × DiscoveryRecord))
    (now : ℚ) (data : List Nat) (src : String)
    (h : parse_iena_packet data np = none) :
    discover_step np s now data src = s := by
  simp [discover_step, h]

theorem discover_step_lookup_ne (np : Nat)
    (s : List ((Nat × String) × DiscoveryRecord)) (now : ℚ) (data : List Nat)
    (src : String) (pkt : IenaPacket) (ident : Nat × String)
    (h : parse_iena_packet data np = some pkt) (hne : ident ≠ (pkt.key, src)) :
    alookup (discover_step np s now data src) ident = alookup s ident := by
  simp only [discover_step, h]
  rw [alookup_aset_ne (pkt.key, src) ident _ hne]
  by_cases hs : (alookup s (pkt.key, src)).isSome
  · rw [if_pos hs]
  · rw [if_neg hs]
    rw [alookup_append]
    cases hx : alookup s ident with
    | none =>
      have hne' : ¬ (pkt.key, src) = ident := fun e => hne e.symm
      simp only [hx, Option.orElse]
      simp [alookup, hne']
    | some r0 => simp [hx, Option.orElse]

theorem discover_step_lookup_eq_none (np : Nat)
    (s : List ((Nat × String) × DiscoveryRecord)) (now : ℚ) (data : List Nat)
    (src : String) (pkt : IenaPacket)
    (h : parse_iena_packet data np = some pkt)
    (hal : alookup s (pkt.key, src) = none) :
    alookup (discover_step np s now data src) (pkt.key, src) =
      some ⟨1, now, now⟩ := by
  simp only [discover_step, h, hal]
  rw [if_neg (by simp)]
  have h1 : alookup (s ++ [((pkt.key, src), ⟨0, now, now⟩)]) (pkt.key, src) =
      some ⟨0, now, now⟩ := by
    rw [alookup_append, hal]
    simp [Option.orElse, alookup]
  rw [h1]
  have h2 := alookup_aset_self (pkt.key, src)
    (⟨0 + 1, now, now⟩ : DiscoveryRecord)
    (s ++ [((pkt.key, src), ⟨0, now, now⟩)]) (by rw [h1]; rfl)
  simpa using h2

theorem discover_step_lookup_eq_some (np : Nat)
    (s : List ((Nat × String) × DiscoveryRecord)) (now : ℚ) (data : List Nat)
    (src : String) (pkt : IenaPacket) (r0 : DiscoveryRecord)
    (h : parse_iena_packet data np = some pkt)
    (hal : alookup s (pkt.key, src) = some r0) :
    alookup (discover_step np s now data src) (pkt.key, src) =
      some ⟨r0.count + 1, r0.first, now⟩ := by
  simp only [discover_step, h, hal]
  rw [if_pos (by simp)]
  rw [hal]
  exact alookup_aset_self (pkt.key, src) _ s (by rw [hal]; rfl)

theorem discover_run_lookup (np : Nat) :
    ∀ (evs : List (ℚ × List Nat × String))
      (acc : List ((Nat × String) × DiscoveryRecord)) (ident : Nat × String),
      alookup (evs.foldl (fun s e => discover_step np s e.1 e.2.1 e.2.2) acc) ident =
        match alookup acc ident with
        | some r0 => some ⟨r0.count + (occTimes np ident evs).length, r0.first,
            (occTimes np ident evs).getLastD r0.last⟩
        | none =>
          match occTimes np ident evs with
          | [] => none
          | t :: ts => some ⟨1 + ts.length, t, ts.getLastD t⟩
  | [], acc, ident => by
    cases hacc : alookup acc ident with
    | none => simp [occTimes, hacc]
    | some r0 =>
      cases r0 with
      | mk c f l => simp [occTimes, hacc]
  | (t, data, src) :: rest, acc, ident => by
    show alookup (rest.foldl (fun s e => discover_step np s e.1 e.2.1 e.2.2)
      (discover_step np acc t data src)) ident = _
    cases hp : parse_iena_packet data np with
    | none =>
      rw [discover_step_none np acc t data src hp]
      have hocc : occTimes np ident ((t, data, src) :: rest) =
          occTimes np ident rest := by
        simp [occTimes, hp]
      rw [discover_run_lookup np rest acc ident]
      rw [hocc]
    | some pkt =>
      by_cases hid : (pkt.key, src) = ident
      · subst hid
        have hocc : occTimes np (pkt.key, src) ((t, data, src) :: rest) =
            t :: occTimes np (pkt.key, src) rest := by
          simp [occTimes, hp]
        rw [discover_run_lookup np rest (discover_step np acc t data src) (pkt.key, src)]
        cases hacc : alookup acc (pkt.key, src) with
        | none =>
          rw [discover_step_lookup_eq_none np acc t data src pkt hp hacc]
          rw [hocc]
        | some r0 =>
          rw [discover_step_lookup_eq_some np acc t data src pkt r0 hp hacc]
          rw [hocc]
          simp only [List.length_cons, List.getLastD_cons]
          have harith : r0.count + 1 + (occTimes np (pkt.key, src) rest).length =
              r0.count + ((occTimes np (pkt.key, src) rest).length + 1) := by omega
          rw [harith]
      · have hocc : occTimes np ident ((t, data, src) :: rest) =
            occTimes np ident rest := by
          simp [occTimes, hp, hid]
        rw [discover_run_lookup np rest (discover_step np acc t data src) ident]
        rw [discover_step_lookup_ne np acc t data src pkt ident hp
          (fun e => hid e.symm)]
        rw [hocc]

/-- C7: discovery aggregation keyed by (decoded key, source address): a
record's count is the number of successfully decoded datagrams with that
identity, its first is the arrival time of the first such datagram, its
last the arrival time of the last, and undecodable datagrams create or
modify no record; in particular 5 decodable packets of key 0x0A01 from
10.0.0.1 and 3 of key 0x0B02 from 10.0.0.2 give exactly two records
with counts 5 and 3. -/
theorem C7_discovery_aggregation :
    (∀ (np : Nat) (evs : List (ℚ × List Nat × String)) (ident : Nat × String),
        alookup (discover_run np evs) ident =
          match occTimes np ident evs with
          | [] => none
          | t :: ts => some ⟨1 + ts.length, t, ts.getLastD t⟩) ∧
    discover_run 1
      [(1, build_iena_packet 0x0A01 0 [7] 1 0, "10.0.0.1"),
       (2, build_iena_packet 0x0A01 1 [7] 1 0, "10.0.0.1"),
       (3, build_iena_packet 0x0A01 2 [7] 1 0, "10.0.0.1"),
       (4, build_iena_packet 0x0A01 3 [7] 1 0, "10.0.0.1"),
       (5, build_iena_packet 0x0A01 4 [7] 1 0, "10.0.0.1"),
       (6, build_iena_packet 0x0B02 0 [9] 1 0, "10.0.0.2"),
       (7, build_iena_packet 0x0B02 1 [9] 1 0, "10.0.0.2"),
       (8, build_iena_packet 0x0B02 2 [9] 1 0, "10.0.0.2")] =
      [((0x0A01, "10.0.0.1"), ⟨5, 1, 5⟩), ((0x0B02, "10.0.0.2"), ⟨3, 6, 8⟩)] :=
  ⟨fun np evs ident => discover_run_lookup np evs [] ident, by decide⟩

/-! ### Discovery termination -/

theorem discover_loopAux_run (np : Nat) (evs : ℕ → LoopEvent) (deadline : ℚ) :
    ∀ (k j : ℕ) (acc : List ((Nat × String) × DiscoveryRecord)),
      (∀ i, i < k → (evs (j + i)).checkTime < deadline) →
      ¬ (evs (j + k)).checkTime < deadline →
      discover_loopAux np evs deadline acc j (k + 1) =
        some (((List.range k).filterMap (fun i => (evs (j + i)).packet)).foldl
          (fun s e => discover_step np s e.1 e.2.1 e.2.2) acc)
  | 0, j, acc, _, hstop => by
    show (if (evs j).checkTime < deadline then _ else some acc) = _
    rw [if_neg (by simpa using hstop)]
    rfl
  | k + 1, j, acc, hgo, hstop => by
    have hj : (evs j).checkTime < deadline := by
      have := hgo 0 (by omega)
      simpa using this
    show (if (evs j).checkTime < deadline then _ else some acc) = _
    rw [if_pos hj]
    have hrec := discover_loopAux_run np evs deadline k (j + 1)
      (match (evs j).packet with
       | none => acc
       | some (t, data, src) => discover_step np acc t data src)
      (fun i hi => by
        have := hgo (i + 1) (by omega)
        have harg : j + (i + 1) = j + 1 + i := by omega
        rw [harg] at this
        exact this)
      (by
        have harg : j + (k + 1) = j + 1 + k := by omega
        rw [harg] at hstop
        exact hstop)
    rw [hrec]
    have hfun : (fun x : ℕ => (evs (j + x.succ)).packet) =
        (fun i : ℕ => (evs (j + 1 + i)).packet) := by
      funext i
      have harg : j + i.succ = j + 1 + i := by omega
      rw [harg]
    have hlist : (List.range (k + 1)).filterMap (fun i => (evs (j + i)).packet) =
        (match (evs j).packet with
         | none => []
         | some e => [e]) ++
          (List.range k).filterMap (fun i => (evs (j + 1 + i)).packet) := by
      rw [List.range_succ_eq_map, List.filterMap_cons]
      cases hpk : (evs (j + 0)).packet with
      | none =>
        have hj0 : j + 0 = j := by omega
        rw [hj0] at hpk
        rw [hpk]
        simp only [List.filterMap_map, Function.comp_def, List.nil_append]
        rw [hfun]
      | some e =>
        have hj0 : j + 0 = j := by omega
        rw [hj0] at hpk
        rw [hpk]
        simp only [List.filterMap_map, Function.comp_def, List.singleton_append]
        rw [hfun]
    rw [hlist]
    cases hpk : (evs j).packet with
    | none => rfl
    | some e =>
      obtain ⟨t, data, src⟩ := e
      rfl

/-- C8: once some loop-condition check of the monotonic clock reaches
the deadline, the `discover_streams` while loop terminates (some finite
fuel suffices) and returns exactly the aggregation of the datagrams
received during the iterations before the deadline, regardless of
timeouts among them and of any events after the deadline — a closed
pass, not a continuous service. -/
theorem C8_discovery_termination (np : Nat) (evs : ℕ → LoopEvent)
    (deadline : ℚ) (h : ∃ m, ¬ (evs m).checkTime < deadline) :
    ∃ N fuel streams,
      (∀ j, j < N → (evs j).checkTime < deadline) ∧
      ¬ (evs N).checkTime < deadline ∧
      discover_loopAux np evs deadline [] 0 fuel = some streams ∧
      streams = discover_run np
        ((List.range N).filterMap (fun i => (evs i).packet)) := by
  refine ⟨Nat.find h, Nat.find h + 1,
    discover_run np ((List.range (Nat.find h)).filterMap (fun i => (evs i).packet)),
    ?_, ?_, ?_, rfl⟩
  · intro j hj
    have := Nat.find_min h hj
    exact not_not.mp this
  · exact Nat.find_spec h
  · have hrun := discover_loopAux_run np evs deadline (Nat.find h) 0 []
      (fun i hi => by
        have := Nat.find_min h (show i < Nat.find h from hi)
        have h0 : (0 : ℕ) + i = i := by omega
        rw [h0]
        exact not_not.mp this)
      (by
        have h0 : (0 : ℕ) + Nat.find h = Nat.find h := by omega
        rw [h0]
        exact Nat.find_spec h)
    have hfun0 : (fun i : ℕ => (evs (0 + i)).packet) =
        (fun i : ℕ => (evs i).packet) := by
      funext i
      have h0 : (0 : ℕ) + i = i := by omega
      rw [h0]
    rw [hfun0] at hrun
    exact hrun

/-- Witness for C8 with a clock already past the deadline. -/
theorem C8_discovery_termination_witness :
    (∃ m, ¬ ((fun _ => ⟨5, none⟩ : ℕ → LoopEvent) m).checkTime < (2 : ℚ)) ∧
    ∃ N fuel streams,
      (∀ j, j < N → ((fun _ => ⟨5, none⟩ : ℕ → LoopEvent) j).checkTime < (2 : ℚ)) ∧
      ¬ ((fun _ => ⟨5, none⟩ : ℕ → LoopEvent) N).checkTime < (2 : ℚ) ∧
      discover_loopAux 1 (fun _ => ⟨5, none⟩) 2 [] 0 fuel = some streams ∧
      streams = discover_run 1
        ((List.range N).filterMap
          (fun i => ((fun _ => ⟨5, none⟩ : ℕ → LoopEvent) i).packet)) :=
  ⟨⟨0, by decide⟩,
    C8_discovery_termination 1 (fun _ => ⟨5, none⟩) 2 ⟨0, by decide⟩⟩

/-! ### Configuration validation -/

/-- C9 counterexample: a configuration with zero configured parameters
and no explicitly requested variables passes the receiver's pre-socket
validation (`selected = param_names[:3] = []`, the membership loop is
vacuous), so `main` proceeds to open sockets instead of rejecting it. -/
theorem C9_zero_params_not_rejected :
    receiver_validate [] none = Except.ok [] := rfl

/-- C9 amended: the sender rejects a zero-parameter configuration before
its socket is created (and accepts otherwise); the receiver rejects,
before any socket is opened, any explicitly requested variable name that
is not in the configured parameter-name list, and every accepted
selection is contained in that list; but the receiver does not reject a
zero-parameter configuration when no variables are explicitly requested
— validation succeeds with an empty selection and sockets are opened. -/
theorem C9_eager_config_rejection_amended :
    (∀ names : List String, names = [] →
        sender_validate names =
          Except.error "At least one variable name is required") ∧
    (∀ names : List String, names ≠ [] → sender_validate names = Except.ok ()) ∧
    (∀ names vs : List String, (∃ v ∈ vs, v ∉ names) →
        ∃ e, receiver_validate names (some vs) = Except.error e) ∧
    (∀ names vs sel : List String,
        receiver_validate names (some vs) = Except.ok sel →
        ∀ v ∈ sel, v ∈ names) ∧
    receiver_validate [] none = Except.ok [] := by
  refine ⟨?_, ?_, ?_, ?_, rfl⟩
  · intro names h
    subst h
    rfl
  · intro names h
    have hl : names.length ≠ 0 := by
      intro e
      exact h (List.length_eq_zero.mp e)
    simp [sender_validate, hl]
  · intro names vs hex
    obtain ⟨v, hv, hnv⟩ := hex
    have hsome : (vs.find? (fun v => ! names.contains v)).isSome := by
      rw [List.find?_isSome]
      exact ⟨v, hv, by simp [hnv]⟩
    obtain ⟨w, hw⟩ := Option.isSome_iff_exists.mp hsome
    refine ⟨w, ?_⟩
    show (match vs.find? (fun v => ! names.contains v) with
      | some v => Except.error v
      | none => Except.ok vs) = Except.error w
    rw [hw]
  · intro names vs sel h v hv
    have h' : (match vs.find? (fun v => ! names.contains v) with
        | some v => Except.error v
        | none => Except.ok vs) = Except.ok sel := h
    cases hf : vs.find? (fun v => ! names.contains v) with
    | some w => rw [hf] at h'; cases h'
    | none =>
      rw [hf] at h'
      have hsel : sel = vs := by
        cases h'
        rfl
      subst hsel
      have hnone := List.find?_eq_none.mp hf v hv
      simp only [Bool.not_eq_true'] at hnone
      simpa using hnone

/-- Witness for C9 (amended): requesting "b" against configured ["a"]
is rejected. -/
theorem C9_eager_config_rejection_amended_witness :
    (∃ v ∈ (["b"] : List String), v ∉ (["a"] : List String)) ∧
    ∃ e, receiver_validate ["a"] (some ["b"]) = Except.error e :=
  ⟨⟨"b", by decide, by decide⟩,
    C9_eager_config_rejection_amended.2.2.1 ["a"] ["b"] ⟨"b", by decide, by decide⟩⟩
